import Mathlib

/-! Verification development for `scripts/internal/download_exes.py`, the
AppVeyor artifact downloader shipped with psutil.

The script is embedded shallowly:

* Pure helpers (`bytes2human`, `hilite`) become pure Lean functions.
* Python floats never leave the `'%.2f' % (float(n) / p)` formatting
  expression, where `n` is an integer and `p` a power of two.  For
  `|n| < 2^53` the quotient `n / p` is an exactly representable double, so
  CPython prints it by rounding the exact rational `n / p` to two decimal
  digits with ties to even.  `formatF2` implements that exact rounding on
  integers, so the embedding agrees with CPython on that whole range.
* Filesystem state is a list of `(path, kind)` entries; `os.makedirs`,
  `shutil.rmtree` and `os.rename` become explicit state-passing functions
  returning `Except OSError`.
* The network is a parameter: the listing API response is a list of
  `(jobId, fileNames)` pairs, and the per-URL download behaviour is a
  function `String → Except String String`.
* Python string operations that the script uses (`str.split('/')`,
  `os.path.basename`, `sorted` with `<` on strings) are modelled by
  structural recursion over `List Char`, with lexicographic comparison by
  code point exactly as CPython compares strings.
-/

namespace DownloadExes

/-! Section: character-level string helpers -/

/-- Lexicographic strict comparison of two character lists by code point.
This is exactly CPython's `<` on strings (which compares code points). -/
def strLt : List Char → List Char → Bool
  | [], [] => false
  | [], _ :: _ => true
  | _ :: _, [] => false
  | a :: as, b :: bs =>
    if a.toNat < b.toNat then true
    else if b.toNat < a.toNat then false
    else strLt as bs

/-- CPython's `<=` on strings: `a <= b` iff `not (b < a)`. -/
def strLe (a b : String) : Bool := !(strLt b.data a.data)

/-- The final `/`-separated segment of a string: models both
`os.path.basename(s)` and `s.split('/')[-1]` for slash-separated paths. -/
def basename (s : String) : String :=
  String.mk (s.data.foldl (fun acc c => if c = '/' then [] else acc ++ [c]) [])

/-- Split a character list on `/`, as CPython's `s.split('/')`:
always returns at least one (possibly empty) group. -/
def splitSlash : List Char → List (List Char)
  | [] => [[]]
  | c :: rest =>
    match splitSlash rest with
    | [] => [[c]]
    | g :: gs => if c = '/' then [] :: g :: gs else (c :: g) :: gs

/-- Bool test that `pre` is a prefix of `s` (models `str.startswith`). -/
def startsWithChars : List Char → List Char → Bool
  | _, [] => true
  | [], _ :: _ => false
  | a :: as, b :: bs => a = b && startsWithChars as bs

/-! Section: formatter, `bytes2human` (source lines 88-103) -/

/-- Round `t / den` to the nearest integer, ties to even (`den > 0`).
This is the rounding CPython's float formatting applies. -/
def roundHalfEven (t den : Nat) : Nat :=
  let w := t / den
  let r := t % den
  if den < 2 * r then w + 1
  else if 2 * r < den then w
  else if w % 2 = 0 then w else w + 1

/-- Render a two-digit fraction part (`00`-`99`). -/
def twoDigits (f : Nat) : String :=
  String.mk [Char.ofNat (48 + f / 10 % 10), Char.ofNat (48 + f % 10)]

/-- CPython's `'%.2f' % (float(num) / den)` for an integer `num` and a
positive `den`: the exact value `num / den` rounded to two decimals with
ties to even, rendered with a sign, an integer part and exactly two
fractional digits.  Exact for dyadic `den` whenever `|num| < 2^53`. -/
def formatF2 (num : Int) (den : Nat) : String :=
  let h := roundHalfEven (100 * num.natAbs) den
  let sign := if num < 0 then "-" else ""
  sign ++ toString (h / 100) ++ "." ++ twoDigits (h % 100)

/-- The unit symbols of `bytes2human` (source line 95). -/
def symbols : List String := ["K", "M", "G", "T", "P", "E", "Z", "Y"]

/-- Unit factor table: `prefix[symbols[i]] = 1 << (i + 1) * 10` (source lines 96-98). -/
def prefixVal (i : Nat) : Nat := 2 ^ ((i + 1) * 10)

/-- The `for s in reversed(symbols)` loop of `bytes2human` (source lines
99-103), iterating over unit indices from largest to smallest: the first
unit whose value `n` reaches is used; otherwise the `B` fallback. -/
def b2hFromLargest (n : Int) : List Nat → String
  | [] => formatF2 n 1 ++ " B"
  | i :: rest =>
    if (prefixVal i : Int) ≤ n then formatF2 n (prefixVal i) ++ " " ++ symbols.getD i ""
    else b2hFromLargest n rest

/-- Model of `bytes2human(n)` (source lines 88-103). -/
def bytes2human (n : Int) : String :=
  b2hFromLargest n (List.range symbols.length).reverse

/-! Section: formatter, `hilite` (source lines 52-65).

`COLORS` is the module-level flag computed once at startup by
`term_supports_colors()` (source line 49); it is passed here explicitly.
Python's `ok` argument takes `True`, `False` or `None`, modelled by
`Option Bool` with `none` for `None`. -/

/-- Model of `hilite(s, ok, bold)` with the startup colour-support flag made an
explicit argument. -/
def hilite (COLORS : Bool) (s : String) (ok : Option Bool) (bold : Bool) : String :=
  if !COLORS then s
  else
    let attr : List String :=
      match ok with
      | none => []
      | some true => ["32"]
      | some false => ["31"]
    let attr := if bold then attr ++ ["1"] else attr
    "\x1b[" ++ String.intercalate ";" attr ++ "m" ++ s ++ "\x1b[0m"

/-! Section: filesystem model and helpers (source lines 68-85) -/

/-- A filesystem entry is a directory or a regular file. -/
inductive NodeKind where
  | dir
  | file
  deriving DecidableEq, Repr

/-- A filesystem: the set of existing paths with their kinds. -/
abbrev FS := List (String × NodeKind)

/-- Errno values used by the script. -/
def ENOENT : Nat := 2

def EEXIST : Nat := 17

def ENOTDIR : Nat := 20

/-- An `OSError` carrying its errno. -/
structure OSError where
  errno : Nat
  deriving DecidableEq, Repr

/-- Does an entry for `p` exist (as any kind)? -/
def hasEntry (fs : FS) (p : String) : Bool :=
  fs.any (fun e => decide (e.1 = p))

/-- Model of `os.path.isdir(p)`. -/
def isdir (fs : FS) (p : String) : Bool :=
  fs.any (fun e => decide (e.1 = p ∧ e.2 = NodeKind.dir))

/-- Is `p` present as a regular file? -/
def isfile (fs : FS) (p : String) : Bool :=
  fs.any (fun e => decide (e.1 = p ∧ e.2 = NodeKind.file))

/-- The proper ancestors of a `/`-separated path, shortest first
(for `a/b/c`: `a`, then `a/b`). -/
def ancestors (p : String) : List String :=
  let parts := splitSlash p.data
  ((List.range parts.length).drop 1).map
    (fun k => String.intercalate "/" ((parts.take k).map String.mk))

/-- Model of `os.makedirs(p)`: fails with `EEXIST` if `p` exists (whatever its
kind), with `ENOTDIR` if some ancestor exists as a regular file, and
otherwise creates `p` and its missing ancestors as directories. -/
def makedirs (fs : FS) (p : String) : Except OSError FS :=
  if hasEntry fs p then .error ⟨EEXIST⟩
  else if (ancestors p).any (fun a => isfile fs a) then .error ⟨ENOTDIR⟩
  else .ok
    ((((ancestors p).filter (fun a => !hasEntry fs a)).map (fun a => (a, NodeKind.dir)))
      ++ (p, NodeKind.dir) :: fs)

/-- Model of `safe_makedirs(path)` (source lines 68-76): swallow `EEXIST` when the
path is already a directory, re-raise everything else. -/
def safe_makedirs (fs : FS) (p : String) : Except OSError FS :=
  match makedirs fs p with
  | .ok fs2 => .ok fs2
  | .error err =>
    if err.errno = EEXIST then
      if !isdir fs p then .error err else .ok fs
    else .error err

/-- Model of `shutil.rmtree(p)` without error handler: `ENOENT` if `p` does not
exist, `ENOTDIR` if it is not a directory, otherwise removes `p` and
every entry below it. -/
def rmtree (fs : FS) (p : String) : Except OSError FS :=
  if !hasEntry fs p then .error ⟨ENOENT⟩
  else if !isdir fs p then .error ⟨ENOTDIR⟩
  else .ok (fs.filter (fun e => !(decide (e.1 = p) || startsWithChars e.1.data (p ++ "/").data)))

/-- Model of `safe_rmtree(path)` (source lines 79-85): the `onerror` handler
swallows `ENOENT` (so a missing tree is a silent no-op) and re-raises
every other error. -/
def safe_rmtree (fs : FS) (p : String) : Except OSError FS :=
  match rmtree fs p with
  | .ok fs2 => .ok fs2
  | .error err => if err.errno = ENOENT then .ok fs else .error err

/-! Section: artifact lister, `get_file_urls` (source lines 120-137).

The two HTTP GETs are abstracted into the data they deliver: a list of
`(jobId, fileNames)` pairs, one per job of the build. -/

def BASE_URL : String := "https://ci.appveyor.com/api"

def PY_VERSIONS : List String := ["2.7", "3.3", "3.4", "3.5", "3.6"]

/-- The URL list accumulated by the nested loops of `get_file_urls`
(source lines 126-133): `job_url + '/' + item['fileName']` for every
artifact of every job, in API order. -/
def rawUrls (jobs : List (String × List String)) : List String :=
  jobs.flatMap
    (fun jf => jf.2.map (fun fn => BASE_URL ++ "/buildjobs/" ++ jf.1 ++ "/artifacts/" ++ fn))

/-- Model of `get_file_urls` (source lines 120-137): `exit("no artifacts found")`
(modelled as `.error (1, msg)`, exit status 1) when no artifact exists,
otherwise the URLs sorted by `os.path.basename` (CPython's `sorted` is a
stable merge sort comparing keys with `<`, i.e. ordering by `strLe`). -/
def get_file_urls (jobs : List (String × List String)) :
    Except (Nat × String) (List String) :=
  let urls := rawUrls jobs
  if urls.isEmpty then .error (1, "no artifacts found")
  else .ok (urls.mergeSort (fun a b => strLe (basename a) (basename b)))

/-! Section: downloader, `download_file` (source lines 106-117).

The streamed HTTP body is abstracted as the list of chunks
`r.iter_content(chunk_size=16384)` yields; only lengths and emptiness of
chunks are observable in the script. -/

/-- One run of `download_file`: the value the function returns (`ret`,
the Python `return local_fname`) together with the bytes written to the
local file (the local variable `tot_bytes`, which the function drops). -/
structure DownloadRun where
  ret : String
  written : Nat
  deriving DecidableEq, Repr

/-- Model of `download_file(url)` given the chunks the server streams back:
`local_fname = os.path.join('dist', url.split('/')[-1])`, zero-length
keep-alive chunks are skipped, and only `local_fname` is returned. -/
def download_file (url : String) (chunks : List (List Nat)) : DownloadRun :=
  let local_fname := "dist/" ++ basename url
  let tot_bytes := (chunks.filter (fun c => !c.isEmpty)).foldl (fun acc c => acc + c.length) 0
  { ret := local_fname, written := tot_bytes }

/-! Section: renaming step, `rename_27_wheels` (source lines 140-149) -/

/-- Source filename of the 32-bit cp27 wheel (source line 142). -/
def wheel_src_32 (version : String) : String :=
  "dist/psutil-" ++ version ++ "-cp27-cp27m-win32.whl"

/-- Destination filename of the 32-bit cp27 wheel (source line 143). -/
def wheel_dst_32 (version : String) : String :=
  "dist/psutil-" ++ version ++ "-cp27-none-win32.whl"

/-- Source filename of the 64-bit cp27 wheel (source line 146). -/
def wheel_src_64 (version : String) : String :=
  "dist/psutil-" ++ version ++ "-cp27-cp27m-win_amd64.whl"

/-- Destination filename of the 64-bit cp27 wheel (source line 147). -/
def wheel_dst_64 (version : String) : String :=
  "dist/psutil-" ++ version ++ "-cp27-none-win_amd64.whl"

/-- The `"rename: %s\n        %s"` notice (source lines 144 and 148). -/
def rename_notice (src dst : String) : String :=
  "rename: " ++ src ++ "\n        " ++ dst

/-- Model of `os.rename(src, dst)` over a flat list of existing filenames:
`ENOENT` when `src` is missing, otherwise `src` is replaced by `dst`. -/
def os_rename (files : List String) (src dst : String) : Except OSError (List String) :=
  if src ∈ files then .ok (files.map (fun f => if f = src then dst else f))
  else .error ⟨ENOENT⟩

/-- One run of `rename_27_wheels`: the printed notices and either the
resulting file list or the `OSError` that escaped. -/
structure RenameRun where
  printed : List String
  result : Except OSError (List String)
  deriving Repr

/-- Model of `rename_27_wheels()` (source lines 140-149): print a notice then
rename the 32-bit wheel, print a notice then rename the 64-bit wheel;
any `os.rename` failure escapes immediately. -/
def rename_27_wheels (version : String) (files : List String) : RenameRun :=
  let n32 := rename_notice (wheel_src_32 version) (wheel_dst_32 version)
  let n64 := rename_notice (wheel_src_64 version) (wheel_dst_64 version)
  match os_rename files (wheel_src_32 version) (wheel_dst_32 version) with
  | .error e => { printed := [n32], result := .error e }
  | .ok files1 =>
    match os_rename files1 (wheel_src_64 version) (wheel_dst_64 version) with
    | .error e => { printed := [n32, n64], result := .error e }
    | .ok files2 => { printed := [n32, n64], result := .ok files2 }

/-! Section: orchestrator, `main` (source lines 152-176).

The thread pool is abstracted by a per-URL download outcome
`dl : String → Except String String` (error detail or returned local
filename).  `completed` and `exc` are the tallies of the `as_completed`
loop: the count of successes and the most recent captured exception;
both are independent of completion order. -/

/-- The `as_completed` tally loop (source lines 155-169): count of
successful downloads and last recorded failure, if any. -/
def runDownloads (dl : String → Except String String) (urls : List String) :
    Nat × Option String :=
  urls.foldl
    (fun acc url =>
      match dl url with
      | .ok _ => (acc.1 + 1, acc.2)
      | .error e => (acc.1, some e))
    (0, none)

/-- Outcome of the verification gate (source lines 170-176). -/
inductive GateResult where
  | proceed
  | exitMsg (code : Nat) (msg : String)
  deriving DecidableEq, Repr

/-- The verification gate (source lines 170-176): with
`expected = len(PY_VERSIONS) * 4`, a count mismatch exits with status 1
reporting both numbers; otherwise any recorded failure exits with status
1 (Python `exit(1)` prints its argument, here `1`); otherwise control
proceeds to `rename_27_wheels()`. -/
def verifyGate (versions : List String) (completed : Nat) (exc : Option String) :
    GateResult :=
  let expected := versions.length * 4
  if expected ≠ completed then
    .exitMsg 1 ("expected " ++ toString expected ++ " files, got " ++ toString completed)
  else if exc.isSome then .exitMsg 1 "1"
  else .proceed

/-- Result of `main`: an `exit`/uncaught-error termination with its
non-zero status, or normal completion with the notices printed by the
rename step and the final `dist` file list. -/
inductive MainOutcome where
  | exitedMsg (code : Nat) (msg : String)
  | finished (printed : List String) (files : List String)
  deriving DecidableEq, Repr

/-- Model of `main(options)` (source lines 152-176), paired with the number of
downloads dispatched (0 when the listing step already exited, so the
DOWNLOADING phase was never reached).  The initial `safe_rmtree('dist')`
and the per-download `safe_makedirs('dist')` act on the real filesystem
and do not influence the modelled control flow; the files present after
DOWNLOADING are the successfully downloaded local filenames. -/
def main (version : String) (jobs : List (String × List String))
    (dl : String → Except String String) : MainOutcome × Nat :=
  match get_file_urls jobs with
  | .error em => (.exitedMsg em.1 em.2, 0)
  | .ok urls =>
    let tally := runDownloads dl urls
    match verifyGate PY_VERSIONS tally.1 tally.2 with
    | .exitMsg c m => (.exitedMsg c m, urls.length)
    | .proceed =>
      let files := urls.filterMap (fun u => (dl u).toOption)
      let rr := rename_27_wheels version files
      match rr.result with
      | .error e => (.exitedMsg 1 ("OSError errno " ++ toString e.errno), urls.length)
      | .ok files2 => (.finished rr.printed files2, urls.length)

/-! Section: helper lemmas for `bytes2human` -/

lemma le_prefixVal (i : Nat) : (1024 : Int) ≤ (prefixVal i : Int) := by
  have h2 : (2 : Nat) ^ 10 ≤ 2 ^ ((i + 1) * 10) :=
    Nat.pow_le_pow_right (by norm_num) (by omega)
  have h : (1024 : Nat) ≤ prefixVal i := by simpa [prefixVal] using h2
  exact_mod_cast h

lemma b2h_all_lt (n : Int) :
    ∀ l : List Nat, (∀ i ∈ l, n < (prefixVal i : Int)) →
      b2hFromLargest n l = formatF2 n 1 ++ " B" := by
  intro l
  induction l with
  | nil => intro _; rfl
  | cons i rest ih =>
    intro h
    simp only [b2hFromLargest]
    rw [if_neg (not_le.mpr (h i (List.mem_cons_self i rest)))]
    exact ih (fun j hj => h j (List.mem_cons_of_mem i hj))

lemma b2h_below (n : Int) (h : n < 1024) : bytes2human n = formatF2 n 1 ++ " B" :=
  b2h_all_lt n _ (fun i _ => lt_of_lt_of_le h (le_prefixVal i))

lemma b2h_at_unit (n : Int) (i : Nat) (hi : i < 8) (hlo : (prefixVal i : Int) ≤ n)
    (hhi : ∀ j : Nat, i < j → j < 8 → n < (prefixVal j : Int)) :
    bytes2human n = formatF2 n (prefixVal i) ++ " " ++ symbols.getD i "" := by
  have key : bytes2human n = b2hFromLargest n [7, 6, 5, 4, 3, 2, 1, 0] := rfl
  rw [key]
  interval_cases i
  · simp only [b2hFromLargest]
    rw [if_neg (not_le.mpr (hhi 7 (by norm_num) (by norm_num))),
        if_neg (not_le.mpr (hhi 6 (by norm_num) (by norm_num))),
        if_neg (not_le.mpr (hhi 5 (by norm_num) (by norm_num))),
        if_neg (not_le.mpr (hhi 4 (by norm_num) (by norm_num))),
        if_neg (not_le.mpr (hhi 3 (by norm_num) (by norm_num))),
        if_neg (not_le.mpr (hhi 2 (by norm_num) (by norm_num))),
        if_neg (not_le.mpr (hhi 1 (by norm_num) (by norm_num))),
        if_pos hlo]
  · simp only [b2hFromLargest]
    rw [if_neg (not_le.mpr (hhi 7 (by norm_num) (by norm_num))),
        if_neg (not_le.mpr (hhi 6 (by norm_num) (by norm_num))),
        if_neg (not_le.mpr (hhi 5 (by norm_num) (by norm_num))),
        if_neg (not_le.mpr (hhi 4 (by norm_num) (by norm_num))),
        if_neg (not_le.mpr (hhi 3 (by norm_num) (by norm_num))),
        if_neg (not_le.mpr (hhi 2 (by norm_num) (by norm_num))),
        if_pos hlo]
  · simp only [b2hFromLargest]
    rw [if_neg (not_le.mpr (hhi 7 (by norm_num) (by norm_num))),
        if_neg (not_le.mpr (hhi 6 (by norm_num) (by norm_num))),
        if_neg (not_le.mpr (hhi 5 (by norm_num) (by norm_num))),
        if_neg (not_le.mpr (hhi 4 (by norm_num) (by norm_num))),
        if_neg (not_le.mpr (hhi 3 (by norm_num) (by norm_num))),
        if_pos hlo]
  · simp only [b2hFromLargest]
    rw [if_neg (not_le.mpr (hhi 7 (by norm_num) (by norm_num))),
        if_neg (not_le.mpr (hhi 6 (by norm_num) (by norm_num))),
        if_neg (not_le.mpr (hhi 5 (by norm_num) (by norm_num))),
        if_neg (not_le.mpr (hhi 4 (by norm_num) (by norm_num))),
        if_pos hlo]
  · simp only [b2hFromLargest]
    rw [if_neg (not_le.mpr (hhi 7 (by norm_num) (by norm_num))),
        if_neg (not_le.mpr (hhi 6 (by norm_num) (by norm_num))),
        if_neg (not_le.mpr (hhi 5 (by norm_num) (by norm_num))),
        if_pos hlo]
  · simp only [b2hFromLargest]
    rw [if_neg (not_le.mpr (hhi 7 (by norm_num) (by norm_num))),
        if_neg (not_le.mpr (hhi 6 (by norm_num) (by norm_num))),
        if_pos hlo]
  · simp only [b2hFromLargest]
    rw [if_neg (not_le.mpr (hhi 7 (by norm_num) (by norm_num))),
        if_pos hlo]
  · simp only [b2hFromLargest]
    rw [if_pos hlo]

/-! Section: claim theorems for the formatter -/

/-- C2: for every non-negative byte count `n`, `bytes2human(n)` renders the
value with two decimal digits (`formatF2`) and the binary-scale unit suffix
that is the largest unit whose scaled value is at least 1.0 (equivalently,
whose factor is at most `n`); every `n` below 1024 renders with the `B`
suffix; the unit factors grow by 1024 from `K` upward; in particular
`bytes2human 10000 = "9.77 K"` and `bytes2human 100001221` renders in the
`M` band, as `"95.37 M"`. -/
theorem C2_bytes2human_band_selection (n : Int) (hn : 0 ≤ n) :
    (n < 1024 → bytes2human n = formatF2 n 1 ++ " B") ∧
    (∀ i : Nat, i < 8 → (prefixVal i : Int) ≤ n →
      (∀ j : Nat, j < 8 → (prefixVal j : Int) ≤ n → j ≤ i) →
      bytes2human n = formatF2 n (prefixVal i) ++ " " ++ symbols.getD i "") ∧
    (prefixVal 0 = 1024 ∧ ∀ i : Nat, prefixVal (i + 1) = 1024 * prefixVal i) ∧
    bytes2human 10000 = "9.77 K" ∧
    bytes2human 100001221 = formatF2 100001221 (prefixVal 1) ++ " M" ∧
    bytes2human 100001221 = "95.37 M" := by
  refine ⟨fun h => b2h_below n h, ?_, ⟨rfl, ?_⟩, ?_, ?_, ?_⟩
  · intro i hi hlo hmax
    refine b2h_at_unit n i hi hlo (fun j hij hj => ?_)
    by_contra hc
    push_neg at hc
    exact absurd (hmax j hj hc) (by omega)
  · intro i
    have h10 : (i + 1 + 1) * 10 = (i + 1) * 10 + 10 := by ring
    simp only [prefixVal, h10, pow_add]
    ring
  · decide
  · decide
  · decide

/-- Witness for C2 at `n = 10000`. -/
theorem C2_witness :
    (0 : Int) ≤ 10000 ∧ bytes2human 10000 = "9.77 K" :=
  ⟨by norm_num, (C2_bytes2human_band_selection 10000 (by norm_num)).2.2.2.1⟩

/-- C10 (implicit): `bytes2human` is total over all integers; every
integer strictly below 1024 — negative inputs included — renders with two
decimals and the `B` suffix rather than raising, e.g.
`bytes2human (-5) = "-5.00 B"`. -/
theorem C10_bytes2human_negative (n : Int) (h : n < 1024) :
    bytes2human n = formatF2 n 1 ++ " B" ∧
    bytes2human (-5) = "-5.00 B" ∧
    bytes2human (-1048576) = "-1048576.00 B" :=
  ⟨b2h_below n h, by decide, by decide⟩

/-- Witness for C10 at `n = -5`. -/
theorem C10_witness :
    (-5 : Int) < 1024 ∧ bytes2human (-5) = formatF2 (-5) 1 ++ " B" :=
  ⟨by norm_num, (C10_bytes2human_negative (-5) (by norm_num)).1⟩

/-- C9: when startup colour detection reported colours unsupported,
`hilite` returns its argument unchanged for every `ok` and `bold`; when
colours are supported it wraps the text in ANSI escape codes — green
(`32`) when `ok` is true, red (`31`) when false, and no colour code when
`ok` is `None`. -/
theorem C9_hilite_colors (s : String) (ok : Option Bool) (bold : Bool) :
    hilite false s ok bold = s ∧
    hilite true s (some true) bold =
      "\x1b[" ++ (if bold then "32;1" else "32") ++ "m" ++ s ++ "\x1b[0m" ∧
    hilite true s (some false) bold =
      "\x1b[" ++ (if bold then "31;1" else "31") ++ "m" ++ s ++ "\x1b[0m" ∧
    hilite true s none bold =
      "\x1b[" ++ (if bold then "1" else "") ++ "m" ++ s ++ "\x1b[0m" := by
  refine ⟨rfl, ?_, ?_, ?_⟩ <;> cases bold <;> rfl

/-! Section: order lemmas for the code-point comparison -/

lemma strLt_irrefl (a : List Char) : strLt a a = false := by
  induction a with
  | nil => rfl
  | cons x xs ih => simp [strLt, ih]

lemma strLt_cons_iff (x y : Char) (xs ys : List Char) :
    strLt (x :: xs) (y :: ys) = true ↔
      x.toNat < y.toNat ∨ (x.toNat = y.toNat ∧ strLt xs ys = true) := by
  simp only [strLt]
  split_ifs with h1 h2
  · simp [h1]
  · simp only [Bool.false_eq_true, false_iff]
    push_neg
    exact ⟨by omega, fun hB => absurd hB (by omega)⟩
  · have hxy : x.toNat = y.toNat := by omega
    simp [hxy]

lemma strLt_asymm (a : List Char) :
    ∀ b, strLt a b = true → strLt b a = false := by
  induction a with
  | nil =>
    intro b hb
    cases b with
    | nil => simp [strLt] at hb
    | cons y ys => rfl
  | cons x xs ih =>
    intro b hb
    cases b with
    | nil => simp [strLt] at hb
    | cons y ys =>
      rw [strLt_cons_iff] at hb
      rcases hb with h | ⟨h, hs⟩
      · simp only [strLt]
        rw [if_neg (by omega), if_pos h]
      · simp only [strLt]
        rw [if_neg (by omega), if_neg (by omega)]
        exact ih ys hs

lemma strLt_trans (a : List Char) :
    ∀ b c, strLt a b = true → strLt b c = true → strLt a c = true := by
  induction a with
  | nil =>
    intro b c hab hbc
    cases b with
    | nil => simp [strLt] at hab
    | cons y ys =>
      cases c with
      | nil => simp [strLt] at hbc
      | cons z zs => rfl
  | cons x xs ih =>
    intro b c hab hbc
    cases b with
    | nil => simp [strLt] at hab
    | cons y ys =>
      cases c with
      | nil => simp [strLt] at hbc
      | cons z zs =>
        rw [strLt_cons_iff] at hab hbc ⊢
        rcases hab with h1 | ⟨h1, s1⟩ <;> rcases hbc with h2 | ⟨h2, s2⟩
        · exact Or.inl (by omega)
        · exact Or.inl (by omega)
        · exact Or.inl (by omega)
        · exact Or.inr ⟨by omega, ih ys zs s1 s2⟩

lemma strLt_conn (a : List Char) :
    ∀ b, strLt a b = false → strLt b a = false → a = b := by
  induction a with
  | nil =>
    intro b h1 _
    cases b with
    | nil => rfl
    | cons y ys => simp [strLt] at h1
  | cons x xs ih =>
    intro b h1 h2
    cases b with
    | nil => simp [strLt] at h2
    | cons y ys =>
      have h1p : ¬ (x.toNat < y.toNat ∨ (x.toNat = y.toNat ∧ strLt xs ys = true)) := by
        intro hp
        have he := (strLt_cons_iff x y xs ys).mpr hp
        simp [he] at h1
      have h2p : ¬ (y.toNat < x.toNat ∨ (y.toNat = x.toNat ∧ strLt ys xs = true)) := by
        intro hp
        have he := (strLt_cons_iff y x ys xs).mpr hp
        simp [he] at h2
      push_neg at h1p h2p
      have hxy : x.toNat = y.toNat := by omega
      have hx : x = y := by
        rw [← Char.ofNat_toNat x, ← Char.ofNat_toNat y, hxy]
      have hs1 : strLt xs ys = false := by
        rcases Bool.eq_false_or_eq_true (strLt xs ys) with h | h
        · exact absurd h (h1p.2 hxy)
        · exact h
      have hs2 : strLt ys xs = false := by
        rcases Bool.eq_false_or_eq_true (strLt ys xs) with h | h
        · exact absurd h (h2p.2 hxy.symm)
        · exact h
      rw [hx, ih ys hs1 hs2]

lemma strLe_total (a b : String) : (strLe a b || strLe b a) = true := by
  simp only [strLe, Bool.or_eq_true, Bool.not_eq_true']
  rcases Bool.eq_false_or_eq_true (strLt b.data a.data) with h | h
  · exact Or.inr (strLt_asymm b.data a.data h)
  · exact Or.inl h

lemma strLe_trans (a b c : String) :
    strLe a b = true → strLe b c = true → strLe a c = true := by
  simp only [strLe, Bool.not_eq_true']
  intro h1 h2
  rcases Bool.eq_false_or_eq_true (strLt c.data a.data) with hca | hca
  · exfalso
    rcases Bool.eq_false_or_eq_true (strLt b.data c.data) with hbc | hbc
    · have hba : strLt b.data a.data = true := strLt_trans b.data c.data a.data hbc hca
      simp [hba] at h1
    · have he : b.data = c.data := strLt_conn b.data c.data hbc h2
      rw [← he] at hca
      simp [hca] at h1
  · exact hca

/-! Section: claim theorems for the lister and the orchestrator gate -/

lemma rawUrls_nil (jobs : List (String × List String))
    (h : ∀ jf ∈ jobs, jf.2 = []) : rawUrls jobs = [] := by
  rw [rawUrls, List.flatMap_eq_nil_iff]
  intro jf hjf
  rw [h jf hjf]
  rfl

/-- C4: when the listing yields no artifact URL (no jobs, or every job
with an empty artifact list), `get_file_urls` exits with status 1 and the
message `"no artifacts found"`, and `main` terminates the same way with
zero downloads dispatched — the DOWNLOADING phase is never reached. -/
theorem C4_empty_listing_fatal (jobs : List (String × List String))
    (h : ∀ jf ∈ jobs, jf.2 = []) :
    get_file_urls jobs = .error (1, "no artifacts found") ∧
    ∀ version dl, main version jobs dl = (.exitedMsg 1 "no artifacts found", 0) := by
  have hraw : rawUrls jobs = [] := rawUrls_nil jobs h
  have hg : get_file_urls jobs = .error (1, "no artifacts found") := by
    simp [get_file_urls, hraw]
  exact ⟨hg, fun version dl => by simp [main, hg]⟩

/-- Witness for C4: one job with an empty artifact list. -/
theorem C4_witness :
    get_file_urls [("jobid1", [])] = .error (1, "no artifacts found") ∧
    main "5.4.8" [("jobid1", [])] (fun u => .ok u) =
      (.exitedMsg 1 "no artifacts found", 0) := by
  have h := C4_empty_listing_fatal [("jobid1", [])] (by simp)
  exact ⟨h.1, h.2 "5.4.8" (fun u => .ok u)⟩

/-- C5: a successful `get_file_urls` yields exactly the URLs gathered
across all jobs (each formed by joining the job's artifact endpoint with
the artifact's filename), reordered so that the filename components (the
final path segments) are sorted lexicographically. -/
theorem C5_urls_sorted_by_basename (jobs : List (String × List String))
    (l : List String) (h : get_file_urls jobs = .ok l) :
    l.Perm (rawUrls jobs) ∧
    l.Pairwise (fun a b => strLe (basename a) (basename b) = true) ∧
    rawUrls jobs = jobs.flatMap
      (fun jf => jf.2.map
        (fun fn => BASE_URL ++ "/buildjobs/" ++ jf.1 ++ "/artifacts/" ++ fn)) := by
  have hl : l = (rawUrls jobs).mergeSort (fun a b => strLe (basename a) (basename b)) := by
    by_cases he : (rawUrls jobs).isEmpty
    · rw [get_file_urls] at h
      simp only [he, if_true] at h
      cases h
    · rw [get_file_urls] at h
      simp only [he, if_false] at h
      exact (Except.ok.inj h).symm
  subst hl
  refine ⟨List.mergeSort_perm _ _, ?_, rfl⟩
  exact List.sorted_mergeSort
    (fun u v w h1 h2 => strLe_trans (basename u) (basename v) (basename w) h1 h2)
    (fun u v => strLe_total (basename u) (basename v))
    (rawUrls jobs)

/-- Witness for C5: two artifacts listed out of order by filename. -/
theorem C5_witness :
    get_file_urls [("j1", ["b.whl", "a.whl"])] =
      .ok ["https://ci.appveyor.com/api/buildjobs/j1/artifacts/a.whl",
           "https://ci.appveyor.com/api/buildjobs/j1/artifacts/b.whl"] ∧
    (["https://ci.appveyor.com/api/buildjobs/j1/artifacts/a.whl",
      "https://ci.appveyor.com/api/buildjobs/j1/artifacts/b.whl"] : List String).Pairwise
      (fun a b => strLe (basename a) (basename b) = true) := by
  have h : get_file_urls [("j1", ["b.whl", "a.whl"])] =
      .ok ["https://ci.appveyor.com/api/buildjobs/j1/artifacts/a.whl",
           "https://ci.appveyor.com/api/buildjobs/j1/artifacts/b.whl"] := by
    simp +decide [get_file_urls, rawUrls, BASE_URL, List.mergeSort, List.merge,
      strLe, strLt, basename]
  exact ⟨h, (C5_urls_sorted_by_basename _ _ h).2.1⟩

/-- C1: the verification gate proceeds to the renaming step iff the
successfully-completed count equals `len(PY_VERSIONS) * 4` and no failure
was recorded; a count mismatch exits with status 1 reporting both
numbers; a recorded failure exits with status 1 even when the count
matches. -/
theorem C1_verification_gate (versions : List String) (completed : Nat)
    (exc : Option String) :
    (verifyGate versions completed exc = .proceed ↔
      completed = versions.length * 4 ∧ exc = none) ∧
    (completed ≠ versions.length * 4 →
      verifyGate versions completed exc =
        .exitMsg 1 ("expected " ++ toString (versions.length * 4) ++
          " files, got " ++ toString completed)) ∧
    (completed = versions.length * 4 → ∀ e, exc = some e →
      verifyGate versions completed exc = .exitMsg 1 "1") := by
  refine ⟨?_, ?_, ?_⟩
  · constructor
    · intro hp
      by_cases h1 : versions.length * 4 ≠ completed
      · simp only [verifyGate, if_pos h1] at hp
        cases hp
      · by_cases h2 : exc.isSome
        · simp only [verifyGate, if_neg h1, if_pos h2] at hp
          cases hp
        · exact ⟨by omega, Option.not_isSome_iff_eq_none.mp h2⟩
    · rintro ⟨hc, hn⟩
      simp only [verifyGate, hn]
      rw [if_neg (fun hne => hne hc.symm)]
      rfl
  · intro hne
    simp only [verifyGate]
    rw [if_pos (fun he => hne he.symm)]
  · intro he e hexc
    simp only [verifyGate, hexc]
    rw [if_neg (fun hne => hne he.symm)]
    rfl

/-- Witness for C1: with the configured five interpreter versions
(`expected = 20`), a count of 19 exits reporting both numbers, a clean
count of 20 proceeds, and a recorded failure exits despite the count
matching. -/
theorem C1_witness :
    verifyGate PY_VERSIONS 19 none =
      .exitMsg 1 ("expected " ++ toString (PY_VERSIONS.length * 4) ++
        " files, got " ++ toString 19) ∧
    verifyGate PY_VERSIONS 20 none = .proceed ∧
    verifyGate PY_VERSIONS 20 (some "boom") = .exitMsg 1 "1" :=
  ⟨(C1_verification_gate PY_VERSIONS 19 none).2.1 (by decide),
   ((C1_verification_gate PY_VERSIONS 20 none).1).mpr ⟨rfl, rfl⟩,
   (C1_verification_gate PY_VERSIONS 20 (some "boom")).2.2 rfl "boom" rfl⟩

/-! Section: claim theorems for the downloader -/

lemma foldl_add_length (l : List (List Nat)) (a : Nat) :
    l.foldl (fun acc c => acc + c.length) a = a + (l.map List.length).sum := by
  induction l generalizing a with
  | nil => simp
  | cons c rest ih =>
    simp only [List.foldl_cons, List.map_cons, List.sum_cons, ih]
    omega

/-- C3 counterexample: two downloads of the same URL whose bodies have
different byte counts produce identical `download_file` return values, so
the value returned on success cannot carry the byte count — the function
returns only the local path (`tot_bytes` is dropped). -/
theorem C3_counterexample :
    (download_file "https://h/a.whl" [[7]]).ret =
      (download_file "https://h/a.whl" [[7], [7]]).ret ∧
    (download_file "https://h/a.whl" [[7]]).written = 1 ∧
    (download_file "https://h/a.whl" [[7], [7]]).written = 2 := by
  decide

/-- C3 (amended): on success the downloader returns only the local file
path `os.path.join('dist', url.split('/')[-1])` — the return value is
independent of the downloaded content — while the byte count is tallied
into the local `tot_bytes` (sum of the non-empty chunk lengths) and
discarded; the orchestrator re-derives the size from the filesystem. -/
theorem C3_download_file_returns_path_only (url : String)
    (chunks chunks2 : List (List Nat)) :
    (download_file url chunks).ret = "dist/" ++ basename url ∧
    (download_file url chunks).ret = (download_file url chunks2).ret ∧
    (download_file url chunks).written =
      ((chunks.filter (fun c => !c.isEmpty)).map List.length).sum := by
  refine ⟨rfl, rfl, ?_⟩
  simp [download_file, foldl_add_length]

/-! Section: claim theorems for the renaming step -/

lemma src32_ne_src64 (v : String) : wheel_src_32 v ≠ wheel_src_64 v := by
  intro h
  have hl := congrArg String.length h
  rw [wheel_src_32, wheel_src_64, String.length_append, String.length_append,
      String.length_append, String.length_append] at hl
  have e1 : ("-cp27-cp27m-win32.whl" : String).length = 21 := rfl
  have e2 : ("-cp27-cp27m-win_amd64.whl" : String).length = 25 := rfl
  rw [e1, e2] at hl
  omega

lemma dst32_ne_src64 (v : String) : wheel_dst_32 v ≠ wheel_src_64 v := by
  intro h
  have hl := congrArg String.length h
  rw [wheel_dst_32, wheel_src_64, String.length_append, String.length_append,
      String.length_append, String.length_append] at hl
  have e1 : ("-cp27-none-win32.whl" : String).length = 20 := rfl
  have e2 : ("-cp27-cp27m-win_amd64.whl" : String).length = 25 := rfl
  rw [e1, e2] at hl
  omega

lemma map_rename_comp (v : String) (files : List String) :
    (files.map (fun f => if f = wheel_src_32 v then wheel_dst_32 v else f)).map
      (fun f => if f = wheel_src_64 v then wheel_dst_64 v else f) =
    files.map (fun f =>
      if f = wheel_src_32 v then wheel_dst_32 v
      else if f = wheel_src_64 v then wheel_dst_64 v else f) := by
  rw [List.map_map]
  refine List.map_congr_left (fun f _ => ?_)
  by_cases h32 : f = wheel_src_32 v
  · simp [Function.comp, h32, dst32_ne_src64 v]
  · by_cases h64 : f = wheel_src_64 v
    · have hne : wheel_src_64 v ≠ wheel_src_32 v := fun he => src32_ne_src64 v he.symm
      simp [Function.comp, h32, h64, hne]
    · simp [Function.comp, h32, h64]

lemma src64_mem_after (v : String) (files : List String)
    (h : wheel_src_64 v ∈ files) :
    wheel_src_64 v ∈ files.map
      (fun f => if f = wheel_src_32 v then wheel_dst_32 v else f) := by
  refine List.mem_map.mpr ⟨wheel_src_64 v, h, ?_⟩
  rw [if_neg (fun he => src32_ne_src64 v he.symm)]

lemma src64_not_mem_after (v : String) (files : List String)
    (h : wheel_src_64 v ∉ files) :
    wheel_src_64 v ∉ files.map
      (fun f => if f = wheel_src_32 v then wheel_dst_32 v else f) := by
  intro hm
  rcases List.mem_map.mp hm with ⟨f, hf, he⟩
  by_cases h32 : f = wheel_src_32 v
  · rw [if_pos h32] at he
    exact dst32_ne_src64 v he
  · rw [if_neg h32] at he
    exact h (he ▸ hf)

/-- C6: the renaming step renames exactly the two cp27 package files —
the 32-bit and 64-bit wheels of the one legacy version 2.7, whose names
embed the current version string and the `cp27m` build tag — to the
`none`-tagged names, printing a notice for each, and leaves every other
file untouched; if either source file is missing, `os.rename` raises
`ENOENT` with no fallback. -/
theorem C6_rename_27_wheels_exact (v : String) (files : List String) :
    (wheel_src_32 v ∈ files → wheel_src_64 v ∈ files →
      rename_27_wheels v files =
        { printed := [rename_notice (wheel_src_32 v) (wheel_dst_32 v),
                      rename_notice (wheel_src_64 v) (wheel_dst_64 v)],
          result := .ok (files.map (fun f =>
            if f = wheel_src_32 v then wheel_dst_32 v
            else if f = wheel_src_64 v then wheel_dst_64 v else f)) }) ∧
    (wheel_src_32 v ∉ files → (rename_27_wheels v files).result = .error ⟨ENOENT⟩) ∧
    (wheel_src_64 v ∉ files → (rename_27_wheels v files).result = .error ⟨ENOENT⟩) := by
  refine ⟨?_, ?_, ?_⟩
  · intro h32 h64
    simp only [rename_27_wheels, os_rename, if_pos h32,
      if_pos (src64_mem_after v files h64)]
    rw [map_rename_comp]
  · intro h32
    simp only [rename_27_wheels, os_rename, if_neg h32]
  · intro h64
    by_cases h32 : wheel_src_32 v ∈ files
    · simp only [rename_27_wheels, os_rename, if_pos h32,
        if_neg (src64_not_mem_after v files h64)]
    · simp only [rename_27_wheels, os_rename, if_neg h32]

/-- Witness for C6 at version `"5.4.8"`: both wheels present are renamed
with two notices; on an empty directory the step fails with `ENOENT`. -/
theorem C6_witness :
    rename_27_wheels "5.4.8" [wheel_src_32 "5.4.8", wheel_src_64 "5.4.8"] =
      { printed := [rename_notice (wheel_src_32 "5.4.8") (wheel_dst_32 "5.4.8"),
                    rename_notice (wheel_src_64 "5.4.8") (wheel_dst_64 "5.4.8")],
        result := .ok ([wheel_src_32 "5.4.8", wheel_src_64 "5.4.8"].map (fun f =>
          if f = wheel_src_32 "5.4.8" then wheel_dst_32 "5.4.8"
          else if f = wheel_src_64 "5.4.8" then wheel_dst_64 "5.4.8" else f)) } ∧
    (rename_27_wheels "5.4.8" []).result = .error ⟨ENOENT⟩ :=
  ⟨(C6_rename_27_wheels_exact "5.4.8" [wheel_src_32 "5.4.8", wheel_src_64 "5.4.8"]).1
      (List.mem_cons_self _ _)
      (List.mem_cons_of_mem _ (List.mem_cons_self _ _)),
   (C6_rename_27_wheels_exact "5.4.8" []).2.1 (List.not_mem_nil _)⟩

/-! Section: claim theorems for the filesystem helpers -/

lemma isdir_hasEntry {fs : FS} {p : String} (h : isdir fs p = true) :
    hasEntry fs p = true := by
  rcases List.any_eq_true.mp h with ⟨e, he, hp⟩
  simp only [decide_eq_true_eq] at hp
  exact List.any_eq_true.mpr ⟨e, he, by simp [hp.1]⟩

lemma safe_makedirs_eq (fs : FS) (p : String) :
    safe_makedirs fs p =
      if hasEntry fs p then
        (if isdir fs p then .ok fs else .error ⟨EEXIST⟩)
      else if (ancestors p).any (fun a => isfile fs a) then .error ⟨ENOTDIR⟩
      else .ok ((((ancestors p).filter (fun a => !hasEntry fs a)).map
        (fun a => (a, NodeKind.dir))) ++ (p, NodeKind.dir) :: fs) := by
  rcases Bool.eq_false_or_eq_true (hasEntry fs p) with h1 | h1
  · rcases Bool.eq_false_or_eq_true (isdir fs p) with h2 | h2 <;>
      simp [safe_makedirs, makedirs, h1, h2, EEXIST]
  · rcases Bool.eq_false_or_eq_true ((ancestors p).any (fun a => isfile fs a)) with h2 | h2 <;>
      simp [safe_makedirs, makedirs, h1, h2, EEXIST, ENOTDIR]

lemma isdir_created (fs : FS) (p : String) :
    isdir ((((ancestors p).filter (fun a => !hasEntry fs a)).map
      (fun a => (a, NodeKind.dir))) ++ (p, NodeKind.dir) :: fs) p = true := by
  simp [isdir]

/-- C7: `safe_makedirs` succeeds silently and changes nothing when the
path already exists as a directory; it is idempotent (a success leaves a
state on which a second call succeeds and changes nothing, with the path
now a directory); and it fails exactly when the path exists as a
non-directory, or another OS error occurs (in the model: some ancestor
exists as a regular file, so `makedirs` raises `ENOTDIR ≠ EEXIST`). -/
theorem C7_safe_makedirs_idempotent (fs : FS) (p : String) :
    (isdir fs p = true → safe_makedirs fs p = .ok fs) ∧
    (∀ fs2, safe_makedirs fs p = .ok fs2 →
      isdir fs2 p = true ∧ safe_makedirs fs2 p = .ok fs2) ∧
    ((∃ e, safe_makedirs fs p = .error e) ↔
      (hasEntry fs p = true ∧ isdir fs p = false) ∨
      (hasEntry fs p = false ∧ (ancestors p).any (fun a => isfile fs a) = true)) := by
  refine ⟨?_, ?_, ?_⟩
  · intro hd
    rw [safe_makedirs_eq, if_pos (isdir_hasEntry hd), if_pos hd]
  · intro fs2 hok
    rw [safe_makedirs_eq] at hok
    split_ifs at hok with h1 h2 h3
    · have hfs : fs2 = fs := (Except.ok.inj hok).symm
      subst hfs
      exact ⟨h2, by rw [safe_makedirs_eq, if_pos h1, if_pos h2]⟩
    · have hfs : fs2 = (((ancestors p).filter (fun a => !hasEntry fs a)).map
          (fun a => (a, NodeKind.dir))) ++ (p, NodeKind.dir) :: fs :=
        (Except.ok.inj hok).symm
      subst hfs
      have hd := isdir_created fs p
      exact ⟨hd, by rw [safe_makedirs_eq, if_pos (isdir_hasEntry hd), if_pos hd]⟩
  · constructor
    · rintro ⟨e, he⟩
      rw [safe_makedirs_eq] at he
      split_ifs at he with h1 h2 h3
      · exact Or.inl ⟨by simpa using h1, by simpa using h2⟩
      · exact Or.inr ⟨by simpa using h1, by simpa using h3⟩
    · rintro (⟨h1, h2⟩ | ⟨h1, h2⟩)
      · exact ⟨⟨EEXIST⟩, by rw [safe_makedirs_eq, if_pos h1, if_neg (by simp [h2])]⟩
      · exact ⟨⟨ENOTDIR⟩, by rw [safe_makedirs_eq, if_neg (by simp [h1]), if_pos h2]⟩

/-- Witness for C7: creating `dist` in an empty filesystem succeeds, and
the second call on the result succeeds and leaves the one directory. -/
theorem C7_witness :
    isdir [("dist", NodeKind.dir)] "dist" = true ∧
    safe_makedirs [("dist", NodeKind.dir)] "dist" = .ok [("dist", NodeKind.dir)] :=
  (C7_safe_makedirs_idempotent [] "dist").2.1 [("dist", NodeKind.dir)] rfl

lemma safe_rmtree_eq (fs : FS) (p : String) :
    safe_rmtree fs p =
      if hasEntry fs p then
        (if isdir fs p then
          .ok (fs.filter (fun e =>
            !(decide (e.1 = p) || startsWithChars e.1.data (p ++ "/").data)))
        else .error ⟨ENOTDIR⟩)
      else .ok fs := by
  rcases Bool.eq_false_or_eq_true (hasEntry fs p) with h1 | h1
  · rcases Bool.eq_false_or_eq_true (isdir fs p) with h2 | h2 <;>
      simp [safe_rmtree, rmtree, h1, h2, ENOENT, ENOTDIR]
  · simp [safe_rmtree, rmtree, h1, ENOENT]

/-- C8: `safe_rmtree` treats a non-existent path as a silent no-op; on an
existing directory it removes that entry and everything below it (an
entry survives iff it was present and is neither the path nor under it);
any other deletion error (in the model: the path exists as a
non-directory, `ENOTDIR ≠ ENOENT`) propagates to the caller. -/
theorem C8_safe_rmtree_noop_or_removes (fs : FS) (p : String) :
    (hasEntry fs p = false → safe_rmtree fs p = .ok fs) ∧
    (isdir fs p = true → safe_rmtree fs p =
      .ok (fs.filter (fun e =>
        !(decide (e.1 = p) || startsWithChars e.1.data (p ++ "/").data)))) ∧
    (isdir fs p = true → ∀ fs2, safe_rmtree fs p = .ok fs2 →
      ∀ e, e ∈ fs2 ↔
        (e ∈ fs ∧ e.1 ≠ p ∧ startsWithChars e.1.data (p ++ "/").data = false)) ∧
    (hasEntry fs p = true → isdir fs p = false →
      safe_rmtree fs p = .error ⟨ENOTDIR⟩) := by
  refine ⟨?_, ?_, ?_, ?_⟩
  · intro h1
    rw [safe_rmtree_eq, if_neg (by simp [h1])]
  · intro hd
    rw [safe_rmtree_eq, if_pos (isdir_hasEntry hd), if_pos hd]
  · intro hd fs2 hok
    rw [safe_rmtree_eq, if_pos (isdir_hasEntry hd), if_pos hd] at hok
    have hfs : fs2 = fs.filter (fun e =>
        !(decide (e.1 = p) || startsWithChars e.1.data (p ++ "/").data)) :=
      (Except.ok.inj hok).symm
    subst hfs
    intro e
    simp [List.mem_filter, and_assoc]
  · intro h1 h2
    rw [safe_rmtree_eq, if_pos h1, if_neg (by simp [h2])]

/-- Witness for C8: removing `dist` deletes it and the file below it but
keeps `other`; removing a missing path is a no-op. -/
theorem C8_witness :
    safe_rmtree [("dist", NodeKind.dir), ("dist/a.whl", NodeKind.file),
        ("other", NodeKind.file)] "dist" =
      .ok ([("dist", NodeKind.dir), ("dist/a.whl", NodeKind.file),
        ("other", NodeKind.file)].filter (fun e =>
          !(decide (e.1 = "dist") || startsWithChars e.1.data ("dist" ++ "/").data))) ∧
    safe_rmtree [] "missing" = .ok [] :=
  ⟨(C8_safe_rmtree_noop_or_removes [("dist", NodeKind.dir),
      ("dist/a.whl", NodeKind.file), ("other", NodeKind.file)] "dist").2.1 (by decide),
   (C8_safe_rmtree_noop_or_removes [] "missing").1 rfl⟩

end DownloadExes
